import Mathlib

/-!
Verification of the Evolunary swarm runtime and verifiable state-transition log.

This file is a shallow embedding of the TypeScript sources:

* `src/stateMachine/sm.ts` — the agent state machine (`AgentStateMachine`,
  `BaseState.hashState`, `BaseState.generateProof`, `transitionTo`, the
  `validTransitions` adjacency table) together with the Merkle-tree algorithm
  of the `merkletreejs` dependency it uses (default options: leaves are not
  re-hashed, pairs are not sorted, an odd trailing node is promoted to the
  next level unchanged).
* `src/swarm/*.ts` and the swarm manager (`SwarmManager.startAgent` /
  `stopAgent` / exit handlers, `AgentMailbox.sendMessage`,
  `SwarmPersistence`).

Modelling conventions:

* Wall-clock reads (`Date.now()`) and random draws (`Math.random()`) are
  passed in as explicit inputs, one per call site, in call order.
* The SHA-256 digest producing `stateHash` is abstracted as a function
  `hashT : EncodedTransition → String` applied to the record that
  `JSON.stringify` serializes in `hashState` (`JSON.stringify` is injective
  on these records, so the record itself stands for the canonical
  serialization).  The pair-combining digest inside the Merkle tree is
  likewise a function `h2 : α → α → α` on hash values, and the private-key
  signature is `signFn : String → String`.  Theorems that need
  collision-freeness state it as an explicit injectivity hypothesis.
* The awaited SQL insert performed by `BaseState.broadcast` is modelled by
  its outcome `persistE : Option String` (`none` = the insert resolved,
  `some err` = it rejected with error `err`); the exception propagates out
  of `transitionTo` exactly as in the JS code, which does not catch it.
* JS `Set`/`Map` objects are modelled as duplicate-free lists: `Set.add` /
  `Map.set` insert the key if absent, `Set.delete` / `Map.delete` remove it.
* `StateMachineLogger` only formats console output and is not modelled.
-/

namespace Evolunary

/-! ## Agent states and the adjacency table (sm.ts lines 18-89) -/

/-- The ten operational phases of an agent lifecycle (the `AgentState` union
type in sm.ts). -/
inductive AgentState : Type where
  | IDLE
  | INIT
  | GOAL_PARSE
  | PLANNING
  | EXECUTING
  | VALIDATING
  | REPORTING
  | COMPLETED
  | ERROR
  | TERMINATED
deriving DecidableEq, Repr

/-- The `AgentStates` array from sm.ts. -/
def AgentStates : List AgentState :=
  [.IDLE, .INIT, .GOAL_PARSE, .PLANNING, .EXECUTING,
   .VALIDATING, .REPORTING, .COMPLETED, .ERROR, .TERMINATED]

/-- The `validTransitions` adjacency record from sm.ts lines 78-89. -/
def validTransitions : AgentState → List AgentState
  | .IDLE => [.INIT, .ERROR, .TERMINATED]
  | .INIT => [.GOAL_PARSE, .ERROR, .TERMINATED, .IDLE]
  | .GOAL_PARSE => [.PLANNING, .ERROR, .TERMINATED, .IDLE]
  | .PLANNING => [.PLANNING, .EXECUTING, .ERROR, .TERMINATED, .IDLE]
  | .EXECUTING => [.EXECUTING, .VALIDATING, .REPORTING, .ERROR, .TERMINATED, .IDLE]
  | .VALIDATING => [.VALIDATING, .COMPLETED, .REPORTING, .EXECUTING, .ERROR, .TERMINATED, .IDLE]
  | .REPORTING => [.VALIDATING, .REPORTING, .COMPLETED, .ERROR, .TERMINATED, .IDLE]
  | .COMPLETED => [.TERMINATED, .IDLE]
  | .ERROR => [.TERMINATED, .IDLE]
  | .TERMINATED => []

/-- Rendering of a state name as in the template literal of the
invalid-transition error message. -/
def stateName : AgentState → String
  | .IDLE => "IDLE"
  | .INIT => "INIT"
  | .GOAL_PARSE => "GOAL_PARSE"
  | .PLANNING => "PLANNING"
  | .EXECUTING => "EXECUTING"
  | .VALIDATING => "VALIDATING"
  | .REPORTING => "REPORTING"
  | .COMPLETED => "COMPLETED"
  | .ERROR => "ERROR"
  | .TERMINATED => "TERMINATED"

/-- The `stateNodes` map built by `initializeStates` (sm.ts lines 209-226):
one node per state of `AgentStates`, whose transition map is keyed by the
targets listed in `validTransitions`. -/
def stateNodes : List (AgentState × List AgentState) :=
  AgentStates.map (fun s => (s, validTransitions s))

/-- The legality test of `transitionTo` (sm.ts line 234):
`currentNode.transitions.has(state)` on the node looked up in `stateNodes`. -/
def hasTransitionB (s t : AgentState) : Bool :=
  match stateNodes.lookup s with
  | some ts => ts.contains t
  | none => false

/-- The node lookup agrees with the adjacency table it was built from. -/
theorem hasTransitionB_eq (s t : AgentState) :
    hasTransitionB s t = (validTransitions s).contains t := by
  cases s <;> cases t <;> rfl

/-! ## Transition records and proofs (sm.ts lines 39-64) -/

/-- The `StateTransition` record (sm.ts lines 39-44).  The TS fields are
named `from`/`to`; `params : any` is modelled as an optional serialized
payload. -/
structure StateTransitionR where
  fromState : AgentState
  toState : AgentState
  action : String
  params : Option String
deriving DecidableEq, Repr

/-- The record serialized by `hashState` (sm.ts lines 110-116):
`JSON.stringify({timestamp: Date.now(), from, to, action, params})`.
The record itself stands for the canonical serialization. -/
structure EncodedTransition where
  timestamp : Nat
  fromState : AgentState
  toState : AgentState
  action : String
  params : Option String
deriving DecidableEq, Repr

/-- The `Proof` record (sm.ts lines 57-64). -/
structure Proof where
  stateHash : String
  prevHash : String
  merkleRoot : String
  merkleProof : List String
  signature : String
  timestamp : Nat
deriving DecidableEq, Repr

/-- `BaseState.hashState` (sm.ts lines 109-118): the digest of the encoded
record, whose `timestamp` field is a fresh `Date.now()` reading taken at
hashing time. -/
def hashState (hashT : EncodedTransition → String) (now : Nat)
    (st : StateTransitionR) : String :=
  hashT ⟨now, st.fromState, st.toState, st.action, st.params⟩

/-! ## The Merkle tree of merkletreejs (default options)

`new MerkleTree(leaves, SHA256)` builds layers bottom-up: adjacent pairs are
combined with the digest, and an odd trailing node is promoted unchanged
(`duplicateOdd` is false).  `getProof` walks the layers collecting the
sibling of the current node, tagged with the side the sibling is on, halving
the index at each layer; `getHexProof` keeps only the sibling data.
Verification folds the proof over the leaf, combining on the recorded side.
The development is generic in the hash-value type `α` and the combining
digest `h2`. -/

/-- One bottom-up layer step: combine adjacent pairs, promote an odd
trailing node unchanged. -/
def nextLevel {α : Type} (h2 : α → α → α) : List α → List α
  | [] => []
  | [a] => [a]
  | a :: b :: rest => h2 a b :: nextLevel h2 rest

theorem nextLevel_length {α : Type} (h2 : α → α → α) :
    ∀ l : List α, (nextLevel h2 l).length = (l.length + 1) / 2
  | [] => by simp [nextLevel]
  | [_] => by simp [nextLevel]
  | _ :: _ :: rest => by
      simp [nextLevel, nextLevel_length h2 rest]
      omega

/-- The Merkle root: fold layers until at most one node remains
(`getRoot`; `none` for the empty tree). -/
def rootFrom {α : Type} (h2 : α → α → α) : List α → Option α
  | [] => none
  | [a] => some a
  | a :: b :: rest => rootFrom h2 (nextLevel h2 (a :: b :: rest))
termination_by l => l.length
decreasing_by
  simp [nextLevel, nextLevel_length]
  omega

/-- The inclusion proof for the leaf at index `i` (`getProof`): at each
layer record the sibling, tagged `true` when the sibling is on the left
(current index odd) and `false` when on the right; the lone odd trailing
node contributes nothing.  The index halves toward the root. -/
def getProofIdx {α : Type} (h2 : α → α → α) (l : List α) (i : Nat) :
    List (Bool × α) :=
  if _h : l.length ≤ 1 then []
  else
    let rest := getProofIdx h2 (nextLevel h2 l) (i / 2)
    if i % 2 = 1 then
      match l.get? (i - 1) with
      | some sib => (true, sib) :: rest
      | none => rest
    else
      match l.get? (i + 1) with
      | some sib => (false, sib) :: rest
      | none => rest
termination_by l.length
decreasing_by
  simp [nextLevel_length]
  omega

/-- Proof verification: fold the sibling path over the leaf, combining on
the recorded side (`MerkleTree.verify`). -/
def processProof {α : Type} (h2 : α → α → α) (leaf : α)
    (proof : List (Bool × α)) : α :=
  proof.foldl (fun acc item => if item.1 then h2 item.2 acc else h2 acc item.2) leaf

/-- The free combining digest: hash values as formal terms, used to
instantiate the generic tree when a theorem needs a collision-free digest. -/
inductive HashTerm : Type where
  | lf : String → HashTerm
  | nd : HashTerm → HashTerm → HashTerm
deriving DecidableEq, Repr

/-- The leaf fringe of a formal hash term, in order. -/
def HashTerm.fringe : HashTerm → List String
  | .lf s => [s]
  | .nd a b => a.fringe ++ b.fringe

/-- The concatenated fringe of a layer of formal hash terms. -/
def fringeAll (l : List HashTerm) : List String :=
  (l.map HashTerm.fringe).flatten

/-! ## `BaseState.generateProof` and `AgentStateMachine` (sm.ts 95-275) -/

/-- `BaseState.generateProof` (sm.ts lines 120-138).  In call order: hash
the transition (first `Date.now()` reading `now1`), push the hash onto
`stateHistory`, rebuild the Merkle tree over the whole pushed history,
read off the root and the inclusion proof for the new hash (`getHexProof`
locates the leaf by value, i.e. at its first occurrence), link `prevHash`
to `stateHistory[length - 2]` — after the push that is the last element of
the pre-push history, with the `|| ''` default when the slot is absent or
empty — sign the hash, and stamp the proof with a second, later
`Date.now()` reading `now2`.  Returns the proof together with the updated
history. -/
def generateProof (hashT : EncodedTransition → String)
    (h2 : String → String → String) (signFn : String → String)
    (now1 now2 : Nat) (hist : List String) (st : StateTransitionR) :
    Proof × List String :=
  let stateHash := hashState hashT now1 st
  let hist2 := hist ++ [stateHash]
  let idx := hist2.indexOf stateHash
  ({ stateHash := stateHash
     prevHash := hist.getLastD ""
     merkleRoot := (rootFrom h2 hist2).getD ""
     merkleProof := (getProofIdx h2 hist2 idx).map Prod.snd
     signature := signFn stateHash
     timestamp := now2 }, hist2)

/-- The mutable fields of `AgentStateMachine` that the claims observe:
`currentState` (initialized to `'INIT'`, sm.ts line 199) and the inherited
`stateHistory` (initialized to `[]`, sm.ts line 96). -/
structure Machine where
  currentState : AgentState
  stateHistory : List String
deriving DecidableEq, Repr

/-- A freshly constructed `AgentStateMachine`. -/
def newMachine : Machine :=
  { currentState := .INIT, stateHistory := [] }

/-- `AgentStateMachine.transitionTo` (sm.ts lines 232-258).  If the target
is not in the current node's transition map, throw the invalid-transition
error and leave the machine untouched.  Otherwise generate the proof
(which already extends the hash history), then `await` the `broadcast`
insert: if it rejects (`persistE = some err`) the exception propagates —
no proof is returned and `currentState` is left unchanged, though the hash
history keeps the pushed hash; if it resolves, `currentState` advances to
the target and the proof is returned. -/
def transitionTo (hashT : EncodedTransition → String)
    (h2 : String → String → String) (signFn : String → String)
    (now1 now2 : Nat) (persistE : Option String) (m : Machine)
    (target : AgentState) (action : String) (data : Option String) :
    Except String Proof × Machine :=
  if hasTransitionB m.currentState target = false then
    (.error ("Invalid transition: " ++ stateName m.currentState ++ " → " ++ stateName target), m)
  else
    let r := generateProof hashT h2 signFn now1 now2 m.stateHistory
      ⟨m.currentState, target, action, data⟩
    match persistE with
    | some err => (.error err, { currentState := m.currentState, stateHistory := r.2 })
    | none => (.ok r.1, { currentState := target, stateHistory := r.2 })

/-- The per-call inputs of one `transitionTo` invocation: the requested
target, action and params, the two wall-clock readings consumed by the
call, and the outcome of the awaited persistence insert. -/
structure StepInput where
  target : AgentState
  action : String
  data : Option String
  now1 : Nat
  now2 : Nat
  persistE : Option String
deriving DecidableEq, Repr

/-- Run a sequence of `transitionTo` calls, collecting each call's result. -/
def runSteps (hashT : EncodedTransition → String)
    (h2 : String → String → String) (signFn : String → String)
    (m : Machine) : List StepInput → List (Except String Proof) × Machine
  | [] => ([], m)
  | s :: rest =>
    let r := transitionTo hashT h2 signFn s.now1 s.now2 s.persistE m
      s.target s.action s.data
    let rr := runSteps hashT h2 signFn r.2 rest
    (r.1 :: rr.1, rr.2)

/-- The fold of the adjacency table over a transition sequence: a legal
target replaces the state, an illegal one leaves it. -/
def foldAdjacency (init : AgentState) (targets : List AgentState) : AgentState :=
  targets.foldl (fun s t => if (validTransitions s).contains t then t else s) init

/-- Run a sequence of `generateProof` calls (one per valid transition
request), threading the hash history and collecting the proofs: the proof
history of a single agent. -/
def genChain (hashT : EncodedTransition → String)
    (h2 : String → String → String) (signFn : String → String)
    (hist : List String) : List (Nat × Nat × StateTransitionR) → List Proof
  | [] => []
  | (n1, n2, st) :: rest =>
    let r := generateProof hashT h2 signFn n1 n2 hist st
    r.1 :: genChain hashT h2 signFn r.2 rest

/-! ## The swarm manager (SwarmManager) and persistence

`SwarmManager` holds `workers : Map<string, Worker>`, `activeAgents :
Set<string>`, the `AgentMailbox` and a `SwarmPersistence` handle.  The
`swarm_agents` table row for an agent carries its status and `last_error`
column.  `upsertAgentState` inserts or updates the listed columns (it does
not touch `last_error`); `updateAgentStatus` runs an `UPDATE ... WHERE id`
that sets both `status` and `last_error` (clearing `last_error` when no
error is passed) and is a no-op for an absent row. -/

/-- The `AgentStatus` union type (swarm/types.ts line 10). -/
inductive AgentStatus : Type where
  | starting
  | running
  | stopping
  | stopped
  | error
deriving DecidableEq, Repr

/-- One `swarm_agents` row, restricted to the columns the claims observe. -/
structure DbRow where
  status : AgentStatus
  lastError : Option String
deriving DecidableEq, Repr

/-- Insert a key into a JS `Set`/`Map` key list: append if absent. -/
def insertKey (l : List String) (k : String) : List String :=
  if l.contains k then l else l ++ [k]

/-- Remove a key from a JS `Set`/`Map` key list. -/
def removeKey (l : List String) (k : String) : List String :=
  l.filter (fun x => x != k)

/-- `SwarmPersistence.upsertAgentState` restricted to the status column:
update the row if present (leaving `last_error` alone), insert it
otherwise. -/
def dbUpsert (db : List (String × DbRow)) (id : String) (status : AgentStatus) :
    List (String × DbRow) :=
  if (db.lookup id).isSome then
    db.map (fun kv =>
      if kv.1 = id then (kv.1, { status := status, lastError := kv.2.lastError }) else kv)
  else
    db ++ [(id, { status := status, lastError := none })]

/-- `SwarmPersistence.updateAgentStatus`: set status and `last_error` on
the matching row; no-op when the row is absent. -/
def dbUpdateStatus (db : List (String × DbRow)) (id : String)
    (status : AgentStatus) (err : Option String) : List (String × DbRow) :=
  db.map (fun kv =>
    if kv.1 = id then (kv.1, { status := status, lastError := err }) else kv)

/-- The status column of an agent's persisted row. -/
def statusOf (db : List (String × DbRow)) (id : String) : Option AgentStatus :=
  (db.lookup id).map DbRow.status

/-- The supervisor state the claims observe: the `workers` map keys, the
`activeAgents` set, the mailbox registrations, the `swarm_agents` table
and the `swarm_logs` rows (agent id, severity, message). -/
structure SwarmState where
  workers : List String
  activeAgents : List String
  registered : List String
  db : List (String × DbRow)
  logs : List (String × String × String)
deriving DecidableEq, Repr

/-- Whether the spawned worker signals `ready` within the 30-second
startup deadline of `startAgent`. -/
inductive StartOutcome : Type where
  | ready
  | timeout
deriving DecidableEq, Repr

/-- `SwarmManager.startAgent` (swarm manager lines 86-159).  Inside the
`try`: a duplicate id throws `'Agent already running'` at once; otherwise
the row is upserted to `starting`, the worker is spawned with its
handlers, the mailbox is registered and the worker recorded, and the call
awaits `ready` against a 30-second timer.  On `ready` the message handler
adds the agent to the active set and persists `running`.  On timeout the
timer callback persists `error`/`'Startup timeout'` and rejects.  Every
throw lands in the `catch`, which persists `error` with the thrown message
and rethrows — including the duplicate-start throw. -/
def startAgent (st : SwarmState) (id : String) (outcome : StartOutcome) :
    Except String Unit × SwarmState :=
  if st.activeAgents.contains id then
    (.error "Agent already running",
     { st with db := dbUpdateStatus st.db id .error (some "Agent already running") })
  else
    let st1 := { st with db := dbUpsert st.db id .starting }
    let st2 := { st1 with
      workers := insertKey st1.workers id,
      registered := insertKey st1.registered id }
    match outcome with
    | .ready =>
      (.ok (), { st2 with
        activeAgents := insertKey st2.activeAgents id,
        db := dbUpdateStatus st2.db id .running none })
    | .timeout =>
      let db3 := dbUpdateStatus st2.db id .error (some "Startup timeout")
      let db4 := dbUpdateStatus db3 id .error (some "Startup timeout")
      (.error "Startup timeout", { st2 with db := db4 })

/-- `SwarmManager.stopAgent` (lines 161-169): when a worker is tracked for
the id, terminate it and drop the worker entry, the mailbox registration
and the active-set membership; otherwise do nothing.  The persisted row is
not touched. -/
def stopAgent (st : SwarmState) (id : String) : SwarmState :=
  if st.workers.contains id then
    { st with
      workers := removeKey st.workers id,
      registered := removeKey st.registered id,
      activeAgents := removeKey st.activeAgents id }
  else st

/-- The worker `exit` handler bound in `startAgent` (lines 127-136): on a
non-zero exit code append a warning log row, then call `stopAgent`. -/
def onWorkerExit (st : SwarmState) (id : String) (code : Int) : SwarmState :=
  let st1 :=
    if code ≠ 0 then
      { st with logs := st.logs ++ [(id, "warning", "Exited with code " ++ toString code)] }
    else st
  stopAgent st1 id

/-- `SwarmManager.isAgentActive`. -/
def isAgentActive (st : SwarmState) (id : String) : Bool :=
  st.activeAgents.contains id

/-- `SwarmManager.getActiveAgentCount`. -/
def getActiveAgentCount (st : SwarmState) : Nat :=
  st.activeAgents.length

/-! ## The mailbox (swarm/mailbox.ts) -/

/-- The message id generated by `AgentMailbox.sendMessage` (mailbox.ts
line 56): the template literal interpolating the agent id, the decimal
rendering of `Date.now()` and the decimal rendering of `Math.random()`,
joined by underscores.  The two readings are passed as the strings they
interpolate to. -/
def messageId (agentId nowStr randStr : String) : String :=
  agentId ++ "_" ++ nowStr ++ "_" ++ randStr

/-- The pending-response bookkeeping of the mailbox: the key list of the
`responseCallbacks` map. -/
structure MailboxState where
  responseCallbacks : List String
deriving DecidableEq, Repr

/-- `AgentMailbox.sendMessage` (mailbox.ts lines 54-60): generate the id,
store the resolver under it (`Map.set`, overwriting any entry with the
same key) and emit; returns the generated id with the updated state. -/
def sendMessage (mb : MailboxState) (agentId nowStr randStr : String) :
    String × MailboxState :=
  let mid := messageId agentId nowStr randStr
  (mid, { responseCallbacks := insertKey mb.responseCallbacks mid })

/-! ## Concrete instantiations of the abstract digest parameters

The theorems below are stated for arbitrary digest functions; witnesses
instantiate them with the following concrete functions.  `demoHash`,
`demoH2` and `demoSign` are trivial picks for claims that need no
collision-freeness; `demoInjHash` is a computable injective digest for the
claims whose hypotheses demand one. -/

/-- A trivial transition digest for witnesses. -/
def demoHash (_e : EncodedTransition) : String := "h"

/-- A trivial pair-combining digest for witnesses. -/
def demoH2 (_a _b : String) : String := "n"

/-- A trivial signer for witnesses. -/
def demoSign (s : String) : String := "sig:" ++ s

/-- An index for each agent state. -/
def stateIdx : AgentState → Nat
  | .IDLE => 0
  | .INIT => 1
  | .GOAL_PARSE => 2
  | .PLANNING => 3
  | .EXECUTING => 4
  | .VALIDATING => 5
  | .REPORTING => 6
  | .COMPLETED => 7
  | .ERROR => 8
  | .TERMINATED => 9

/-- An injective code for character lists. -/
def charCodeList (l : List Char) : Nat :=
  l.foldr (fun c n => Nat.pair c.toNat n + 1) 0

/-- An injective code for strings. -/
def strCode (s : String) : Nat := charCodeList s.data

/-- An injective code for optional strings. -/
def optCode : Option String → Nat
  | none => 0
  | some s => strCode s + 1

/-- An injective code for encoded transition records. -/
def encCode (e : EncodedTransition) : Nat :=
  Nat.pair e.timestamp
    (Nat.pair (stateIdx e.fromState)
      (Nat.pair (stateIdx e.toState)
        (Nat.pair (strCode e.action) (optCode e.params))))

/-- An injective transition digest for witnesses that need a
collision-free digest. -/
def demoInjHash (e : EncodedTransition) : String :=
  String.mk (List.replicate (encCode e) 'x')

/-- A concrete two-step transition run for witnesses:
INIT to GOAL_PARSE to PLANNING, persistence succeeding. -/
def demoSteps : List StepInput :=
  [⟨.GOAL_PARSE, "parse", none, 1, 2, none⟩,
   ⟨.PLANNING, "plan", none, 3, 4, none⟩]

/-- A concrete supervisor state with one healthy active agent "A" whose
persisted status is `running`. -/
def demoActiveState : SwarmState :=
  { workers := ["A"], activeAgents := ["A"], registered := ["A"],
    db := [("A", { status := .running, lastError := none })], logs := [] }

/-- A concrete empty supervisor state. -/
def demoEmptyState : SwarmState :=
  { workers := [], activeAgents := [], registered := [], db := [], logs := [] }

/-- A concrete supervisor state with agent "B" active and its worker
tracked. -/
def demoRunningB : SwarmState :=
  { workers := ["B"], activeAgents := ["B"], registered := ["B"],
    db := [("B", { status := .running, lastError := none })], logs := [] }

/-- A concrete transition record for witnesses. -/
def demoSt : StateTransitionR :=
  ⟨.INIT, .GOAL_PARSE, "parse_goal", none⟩

/-- Concrete generateProof inputs for witnesses: two transitions with
their two clock readings each. -/
def demoInputs : List (Nat × Nat × StateTransitionR) :=
  [(1, 2, demoSt), (3, 4, ⟨.GOAL_PARSE, .PLANNING, "plan", none⟩)]

/-! ## Merkle-tree lemmas -/

theorem rootFrom_cons2 {α : Type} (h2 : α → α → α) (x y : α) (rest : List α) :
    rootFrom h2 (x :: y :: rest) = rootFrom h2 (nextLevel h2 (x :: y :: rest)) := by
  rw [rootFrom]

theorem processProof_cons {α : Type} (h2 : α → α → α) (leaf : α)
    (item : Bool × α) (rest : List (Bool × α)) :
    processProof h2 leaf (item :: rest) =
      processProof h2 (if item.1 then h2 item.2 leaf else h2 leaf item.2) rest := rfl

theorem nextLevel_get?_pair {α : Type} (h2 : α → α → α) :
    ∀ (l : List α) (j : Nat) (x y : α),
      l.get? (2 * j) = some x → l.get? (2 * j + 1) = some y →
      (nextLevel h2 l).get? j = some (h2 x y)
  | [], _, _, _, hx, _ => by simp at hx
  | [a], j, x, y, hx, hy => by
      match j with
      | 0 => simp at hy
      | j + 1 =>
          rw [show 2 * (j + 1) = 2 * j + 1 + 1 by ring] at hx
          simp at hx
  | a :: b :: rest, j, x, y, hx, hy => by
      match j with
      | 0 =>
          simp at hx hy
          subst hx; subst hy
          simp [nextLevel]
      | j + 1 =>
          rw [show 2 * (j + 1) = 2 * j + 1 + 1 by ring] at hx
          rw [show 2 * (j + 1) + 1 = 2 * j + 1 + 1 + 1 by ring] at hy
          simp only [List.get?_cons_succ] at hx hy
          simpa [nextLevel] using nextLevel_get?_pair h2 rest j x y hx hy

theorem nextLevel_get?_promote {α : Type} (h2 : α → α → α) :
    ∀ (l : List α) (j : Nat) (x : α),
      l.get? (2 * j) = some x → l.get? (2 * j + 1) = none →
      (nextLevel h2 l).get? j = some x
  | [], _, _, hx, _ => by simp at hx
  | [a], j, x, hx, _ => by
      match j with
      | 0 =>
          simp at hx
          subst hx
          simp [nextLevel]
      | j + 1 =>
          rw [show 2 * (j + 1) = 2 * j + 1 + 1 by ring] at hx
          simp at hx
  | a :: b :: rest, j, x, hx, hy => by
      match j with
      | 0 => simp at hy
      | j + 1 =>
          rw [show 2 * (j + 1) = 2 * j + 1 + 1 by ring] at hx
          rw [show 2 * (j + 1) + 1 = 2 * j + 1 + 1 + 1 by ring] at hy
          simp only [List.get?_cons_succ] at hx hy
          simpa [nextLevel] using nextLevel_get?_promote h2 rest j x hx hy

theorem getProofIdx_odd {α : Type} (h2 : α → α → α) (l : List α) (i : Nat) (c : α)
    (hlen : ¬ l.length ≤ 1) (hodd : i % 2 = 1) (hc : l.get? (i - 1) = some c) :
    getProofIdx h2 l i = (true, c) :: getProofIdx h2 (nextLevel h2 l) (i / 2) := by
  rw [List.get?_eq_getElem?] at hc
  rw [getProofIdx, dif_neg hlen]
  simp [hodd, hc]

theorem getProofIdx_even {α : Type} (h2 : α → α → α) (l : List α) (i : Nat) (b : α)
    (hlen : ¬ l.length ≤ 1) (heven : i % 2 = 0) (hb : l.get? (i + 1) = some b) :
    getProofIdx h2 l i = (false, b) :: getProofIdx h2 (nextLevel h2 l) (i / 2) := by
  rw [List.get?_eq_getElem?] at hb
  rw [getProofIdx, dif_neg hlen]
  simp [heven, hb]

theorem getProofIdx_even_last {α : Type} (h2 : α → α → α) (l : List α) (i : Nat)
    (hlen : ¬ l.length ≤ 1) (heven : i % 2 = 0) (hb : l.get? (i + 1) = none) :
    getProofIdx h2 l i = getProofIdx h2 (nextLevel h2 l) (i / 2) := by
  rw [List.get?_eq_getElem?] at hb
  rw [getProofIdx, dif_neg hlen]
  simp [heven, hb]

/-- The round-trip of the Merkle algorithm: the inclusion proof extracted
for any leaf of the tree folds back to the root of the tree, for every
combining digest. -/
theorem merkle_roundtrip {α : Type} (h2 : α → α → α) (l : List α) (i : Nat) (a : α)
    (ha : l.get? i = some a) :
    rootFrom h2 l = some (processProof h2 a (getProofIdx h2 l i)) := by
  have hi : i < l.length := by
    by_contra hn
    push_neg at hn
    rw [List.get?_eq_none.mpr hn] at ha
    simp at ha
  by_cases hlen : l.length ≤ 1
  · have h1 : l.length = 1 := by omega
    have hi0 : i = 0 := by omega
    subst hi0
    obtain ⟨x, rfl⟩ := List.length_eq_one.mp h1
    simp at ha
    subst ha
    simp [rootFrom, getProofIdx, processProof]
  · have hunfold : rootFrom h2 l = rootFrom h2 (nextLevel h2 l) := by
      match l with
      | [] => simp at hlen
      | [x] => simp at hlen
      | x :: y :: rest => exact rootFrom_cons2 h2 x y rest
    rcases Nat.mod_two_eq_zero_or_one i with heven | hodd
    · by_cases hnext : i + 1 < l.length
      · obtain ⟨b, hb⟩ : ∃ b, l.get? (i + 1) = some b :=
          ⟨l.get ⟨i + 1, hnext⟩, List.get?_eq_get hnext⟩
        have hstep : (nextLevel h2 l).get? (i / 2) = some (h2 a b) := by
          apply nextLevel_get?_pair h2 l (i / 2) a b
          · rw [show 2 * (i / 2) = i by omega]; exact ha
          · rw [show 2 * (i / 2) + 1 = i + 1 by omega]; exact hb
        have ih := merkle_roundtrip h2 (nextLevel h2 l) (i / 2) (h2 a b) hstep
        rw [hunfold, ih, getProofIdx_even h2 l i b hlen heven hb, processProof_cons]
        simp
      · have hb : l.get? (i + 1) = none := List.get?_eq_none.mpr (by omega)
        have hstep : (nextLevel h2 l).get? (i / 2) = some a := by
          apply nextLevel_get?_promote h2 l (i / 2) a
          · rw [show 2 * (i / 2) = i by omega]; exact ha
          · rw [show 2 * (i / 2) + 1 = i + 1 by omega]; exact hb
        have ih := merkle_roundtrip h2 (nextLevel h2 l) (i / 2) a hstep
        rw [hunfold, ih, getProofIdx_even_last h2 l i hlen heven hb]
    · have h1le : 1 ≤ i := by omega
      obtain ⟨c, hc⟩ : ∃ c, l.get? (i - 1) = some c :=
        ⟨l.get ⟨i - 1, by omega⟩, List.get?_eq_get (by omega)⟩
      have hstep : (nextLevel h2 l).get? (i / 2) = some (h2 c a) := by
        apply nextLevel_get?_pair h2 l (i / 2) c a
        · rw [show 2 * (i / 2) = i - 1 by omega]; exact hc
        · rw [show 2 * (i / 2) + 1 = i by omega]; exact ha
      have ih := merkle_roundtrip h2 (nextLevel h2 l) (i / 2) (h2 c a) hstep
      rw [hunfold, ih, getProofIdx_odd h2 l i c hlen hodd hc, processProof_cons]
      simp
termination_by l.length
decreasing_by
  all_goals simp [nextLevel_length]
  all_goals omega

theorem rootFrom_isSome {α : Type} (h2 : α → α → α) :
    ∀ l : List α, l ≠ [] → (rootFrom h2 l).isSome = true
  | [], h => absurd rfl h
  | [a], _ => by simp [rootFrom]
  | a :: b :: rest, _ => by
      rw [rootFrom_cons2]
      exact rootFrom_isSome h2 (nextLevel h2 (a :: b :: rest)) (by simp [nextLevel])
termination_by l => l.length
decreasing_by
  simp [nextLevel, nextLevel_length]
  omega

theorem fringeAll_nextLevel :
    ∀ l : List HashTerm, fringeAll (nextLevel HashTerm.nd l) = fringeAll l
  | [] => rfl
  | [_] => rfl
  | a :: b :: rest => by
      simp [nextLevel, fringeAll, HashTerm.fringe] at *
      simpa [List.append_assoc] using fringeAll_nextLevel rest

/-- Over the free combining digest the root determines the ordered leaf
fringe of the tree. -/
theorem rootFrom_fringe :
    ∀ (l : List HashTerm) (r : HashTerm),
      rootFrom HashTerm.nd l = some r → r.fringe = fringeAll l
  | [], r, h => by simp [rootFrom] at h
  | [a], r, h => by
      simp [rootFrom] at h
      subst h
      simp [fringeAll]
  | a :: b :: rest, r, h => by
      rw [rootFrom_cons2] at h
      have := rootFrom_fringe (nextLevel HashTerm.nd (a :: b :: rest)) r h
      rw [this, fringeAll_nextLevel]
termination_by l => l.length
decreasing_by
  simp [nextLevel, nextLevel_length]
  omega

theorem fringeAll_append (a b : List HashTerm) :
    fringeAll (a ++ b) = fringeAll a ++ fringeAll b := by
  simp [fringeAll]

theorem fringeAll_map_lf (l : List String) :
    fringeAll (l.map HashTerm.lf) = l := by
  induction l with
  | nil => rfl
  | cons a rest ih => simp [fringeAll, HashTerm.fringe] at *; exact ih

/-- Appending one leaf always changes the root over the free combining
digest: the two fringes have different lengths. -/
theorem rootFrom_append_ne (l : List String) (x : String) :
    rootFrom HashTerm.nd (l.map HashTerm.lf ++ [HashTerm.lf x]) ≠
      rootFrom HashTerm.nd (l.map HashTerm.lf) := by
  intro heq
  have hne : (l.map HashTerm.lf ++ [HashTerm.lf x]) ≠ [] := by simp
  obtain ⟨r, hr⟩ := Option.isSome_iff_exists.mp (rootFrom_isSome HashTerm.nd _ hne)
  have hfr := rootFrom_fringe _ r hr
  rw [heq] at hr
  have hfr' := rootFrom_fringe _ r hr
  rw [hfr'] at hfr
  have : fringeAll (l.map HashTerm.lf) = fringeAll (l.map HashTerm.lf ++ [HashTerm.lf x]) := hfr
  rw [fringeAll_append, fringeAll_map_lf] at this
  have hlen := congrArg List.length this
  simp [fringeAll, HashTerm.fringe] at hlen

/-! ## Injectivity of the demo digest -/

theorem charToNat_inj (c d : Char) (h : c.toNat = d.toNat) : c = d := by
  exact Char.eq_of_val_eq (UInt32.eq_of_toBitVec_eq (by
    simp [Char.toNat, UInt32.toNat] at h
    exact BitVec.eq_of_toNat_eq h))

theorem charCodeList_inj : ∀ l1 l2 : List Char,
    charCodeList l1 = charCodeList l2 → l1 = l2
  | [], [], _ => rfl
  | [], c :: l2, h => by simp [charCodeList] at h
  | c :: l1, [], h => by simp [charCodeList] at h
  | c :: l1, d :: l2, h => by
      have h' : Nat.pair c.toNat (charCodeList l1) + 1 =
          Nat.pair d.toNat (charCodeList l2) + 1 := h
      have hp : Nat.pair c.toNat (charCodeList l1) = Nat.pair d.toNat (charCodeList l2) := by
        omega
      have hu := congrArg Nat.unpair hp
      rw [Nat.unpair_pair, Nat.unpair_pair] at hu
      have hc : c = d := charToNat_inj c d (congrArg Prod.fst hu)
      have hl : l1 = l2 := charCodeList_inj l1 l2 (congrArg Prod.snd hu)
      rw [hc, hl]

theorem strCode_inj (s t : String) (h : strCode s = strCode t) : s = t :=
  String.ext (charCodeList_inj s.data t.data h)

theorem optCode_inj (o p : Option String) (h : optCode o = optCode p) : o = p := by
  match o, p with
  | none, none => rfl
  | none, some t => simp [optCode] at h
  | some s, none => simp [optCode] at h
  | some s, some t =>
      simp [optCode] at h
      rw [strCode_inj s t h]

theorem stateIdx_inj (s t : AgentState) (h : stateIdx s = stateIdx t) : s = t := by
  cases s <;> cases t <;> first | rfl | simp [stateIdx] at h

theorem encCode_inj (e1 e2 : EncodedTransition) (h : encCode e1 = encCode e2) :
    e1 = e2 := by
  have h1 := congrArg Nat.unpair h
  rw [encCode, encCode, Nat.unpair_pair, Nat.unpair_pair] at h1
  have hts : e1.timestamp = e2.timestamp := congrArg Prod.fst h1
  have h2 := congrArg Nat.unpair (congrArg Prod.snd h1)
  rw [Nat.unpair_pair, Nat.unpair_pair] at h2
  have hfrom := stateIdx_inj _ _ (congrArg Prod.fst h2)
  have h3 := congrArg Nat.unpair (congrArg Prod.snd h2)
  rw [Nat.unpair_pair, Nat.unpair_pair] at h3
  have hto := stateIdx_inj _ _ (congrArg Prod.fst h3)
  have h4 := congrArg Nat.unpair (congrArg Prod.snd h3)
  rw [Nat.unpair_pair, Nat.unpair_pair] at h4
  have hact := strCode_inj _ _ (congrArg Prod.fst h4)
  have hpar := optCode_inj _ _ (congrArg Prod.snd h4)
  cases e1; cases e2
  simp_all

theorem demoInjHash_inj : Function.Injective demoInjHash := by
  intro e1 e2 h
  have hd : (List.replicate (encCode e1) 'x') = (List.replicate (encCode e2) 'x') := by
    have := congrArg String.data h
    simpa [demoInjHash] using this
  have hlen := congrArg List.length hd
  simp at hlen
  exact encCode_inj e1 e2 hlen

/-! ## State-machine run lemmas -/

theorem runSteps_fold (hashT : EncodedTransition → String)
    (h2 : String → String → String) (signFn : String → String) :
    ∀ (steps : List StepInput) (m : Machine),
      (∀ r ∈ (runSteps hashT h2 signFn m steps).1, r.isOk = true) →
      (runSteps hashT h2 signFn m steps).2.currentState =
        foldAdjacency m.currentState (steps.map StepInput.target)
  | [], m, _ => by simp [runSteps, foldAdjacency]
  | s :: rest, m, hok => by
      have hhead : (transitionTo hashT h2 signFn s.now1 s.now2 s.persistE m
          s.target s.action s.data).1.isOk = true := by
        apply hok
        simp [runSteps]
      by_cases hv : hasTransitionB m.currentState s.target = true
      · cases hpe : s.persistE with
        | some err =>
            exfalso
            rw [hpe] at hhead
            simp [transitionTo, hv, Except.isOk, Except.toBool] at hhead
        | none =>
            have htail : ∀ r ∈ (runSteps hashT h2 signFn
                (transitionTo hashT h2 signFn s.now1 s.now2 s.persistE m
                  s.target s.action s.data).2 rest).1, r.isOk = true := by
              intro r hr
              apply hok
              simp [runSteps]
              exact Or.inr hr
            have ih := runSteps_fold hashT h2 signFn rest _ htail
            simp only [runSteps]
            rw [ih]
            have hcur : (transitionTo hashT h2 signFn s.now1 s.now2 s.persistE m
                s.target s.action s.data).2.currentState = s.target := by
              rw [hpe]
              simp [transitionTo, hv]
            rw [hcur]
            have hcont : (validTransitions m.currentState).contains s.target = true := by
              rw [← hasTransitionB_eq]
              exact hv
            have hmem : s.target ∈ validTransitions m.currentState := by
              simpa using hcont
            simp [foldAdjacency, hmem]
      · exfalso
        have hv' : hasTransitionB m.currentState s.target = false := by
          cases h : hasTransitionB m.currentState s.target
          · rfl
          · exact absurd h hv
        simp [transitionTo, hv', Except.isOk, Except.toBool] at hhead

theorem genChain_chain (hashT : EncodedTransition → String)
    (h2 : String → String → String) (signFn : String → String) :
    ∀ (inputs : List (Nat × Nat × StateTransitionR)) (hist : List String),
      (∀ hp : 0 < (genChain hashT h2 signFn hist inputs).length,
        ((genChain hashT h2 signFn hist inputs).get ⟨0, hp⟩).prevHash = hist.getLastD "")
      ∧ (∀ (k : Nat) (hk : k + 1 < (genChain hashT h2 signFn hist inputs).length),
        ((genChain hashT h2 signFn hist inputs).get ⟨k + 1, hk⟩).prevHash =
          ((genChain hashT h2 signFn hist inputs).get ⟨k, by omega⟩).stateHash)
  | [], hist => by
      constructor
      · intro hp
        simp [genChain] at hp
      · intro k hk
        simp [genChain] at hk
  | (n1, n2, st) :: rest, hist => by
      have ih := genChain_chain hashT h2 signFn rest
        (hist ++ [hashState hashT n1 st])
      constructor
      · intro _
        simp [genChain, generateProof]
      · intro k hk
        match k with
        | 0 =>
            have hlen : 0 < (genChain hashT h2 signFn
                (hist ++ [hashState hashT n1 st]) rest).length := by
              simp [genChain, generateProof] at hk ⊢
              omega
            have h0 := (ih).1 hlen
            rw [List.getLastD_concat] at h0
            simp [genChain, generateProof]
            exact h0
        | k + 1 =>
            have hlen : k + 1 < (genChain hashT h2 signFn
                (hist ++ [hashState hashT n1 st]) rest).length := by
              simp [genChain, generateProof] at hk ⊢
              omega
            have hc := (ih).2 k hlen
            simp [genChain, generateProof]
            exact hc

/-! ## Shape lemmas for transitionTo -/

theorem transitionTo_invalid (hashT : EncodedTransition → String)
    (h2 : String → String → String) (signFn : String → String)
    (now1 now2 : Nat) (pe : Option String) (m : Machine) (t : AgentState)
    (act : String) (d : Option String)
    (h : hasTransitionB m.currentState t = false) :
    transitionTo hashT h2 signFn now1 now2 pe m t act d =
      (.error ("Invalid transition: " ++ stateName m.currentState ++ " → " ++ stateName t), m) := by
  simp [transitionTo, h]

theorem transitionTo_valid_none (hashT : EncodedTransition → String)
    (h2 : String → String → String) (signFn : String → String)
    (now1 now2 : Nat) (m : Machine) (t : AgentState)
    (act : String) (d : Option String)
    (h : hasTransitionB m.currentState t = true) :
    transitionTo hashT h2 signFn now1 now2 none m t act d =
      (.ok (generateProof hashT h2 signFn now1 now2 m.stateHistory ⟨m.currentState, t, act, d⟩).1,
       { currentState := t,
         stateHistory := (generateProof hashT h2 signFn now1 now2 m.stateHistory
           ⟨m.currentState, t, act, d⟩).2 }) := by
  simp [transitionTo, h]

theorem transitionTo_valid_some (hashT : EncodedTransition → String)
    (h2 : String → String → String) (signFn : String → String)
    (now1 now2 : Nat) (err : String) (m : Machine) (t : AgentState)
    (act : String) (d : Option String)
    (h : hasTransitionB m.currentState t = true) :
    transitionTo hashT h2 signFn now1 now2 (some err) m t act d =
      (.error err,
       { currentState := m.currentState,
         stateHistory := (generateProof hashT h2 signFn now1 now2 m.stateHistory
           ⟨m.currentState, t, act, d⟩).2 }) := by
  simp [transitionTo, h]

theorem transitionTo_isOk (hashT : EncodedTransition → String)
    (h2 : String → String → String) (signFn : String → String)
    (now1 now2 : Nat) (m : Machine) (t : AgentState)
    (act : String) (d : Option String) :
    (transitionTo hashT h2 signFn now1 now2 none m t act d).1.isOk =
      hasTransitionB m.currentState t := by
  by_cases hv : hasTransitionB m.currentState t = true
  · simp [transitionTo, hv, Except.isOk, Except.toBool]
  · have hv' : hasTransitionB m.currentState t = false := by
      cases h : hasTransitionB m.currentState t
      · rfl
      · exact absurd h hv
    simp [transitionTo, hv', Except.isOk, Except.toBool]

/-! ## Swarm bookkeeping lemmas -/

theorem insertKey_contains (l : List String) (k : String) :
    (insertKey l k).contains k = true := by
  by_cases h : k ∈ l
  · simp [insertKey, h]
  · simp [insertKey, h]

theorem removeKey_contains_self (l : List String) (k : String) :
    (removeKey l k).contains k = false := by
  simp [removeKey]

theorem lookup_cons_self (k : String) (b : DbRow) (rest : List (String × DbRow)) :
    ((k, b) :: rest).lookup k = some b := by
  simp [List.lookup]

theorem lookup_cons_ne (k id : String) (b : DbRow) (rest : List (String × DbRow))
    (h : ¬ id = k) : ((k, b) :: rest).lookup id = rest.lookup id := by
  have hb : (id == k) = false := by simp [h]
  simp [List.lookup, hb]

theorem lookup_map_update (id : String) (f : DbRow → DbRow) :
    ∀ db : List (String × DbRow),
      (db.map (fun kv => if kv.1 = id then (kv.1, f kv.2) else kv)).lookup id =
        (db.lookup id).map f
  | [] => rfl
  | (k, b) :: rest => by
      by_cases h : k = id
      · subst h
        simp only [List.map_cons]
        rw [if_pos trivial]
        rw [lookup_cons_self, lookup_cons_self]
        rfl
      · simp only [List.map_cons]
        rw [show (if (k, b).1 = id then ((k, b).1, f (k, b).2) else (k, b)) =
          (k, b) from by simp [h]]
        rw [lookup_cons_ne k id _ _ (Ne.symm h), lookup_cons_ne k id _ _ (Ne.symm h)]
        exact lookup_map_update id f rest

theorem dbUpdateStatus_lookup (db : List (String × DbRow)) (id : String)
    (s : AgentStatus) (e : Option String) :
    (dbUpdateStatus db id s e).lookup id =
      (db.lookup id).map (fun _ => ⟨s, e⟩) :=
  lookup_map_update id (fun _ => ⟨s, e⟩) db

theorem lookup_append_single (id : String) (row : DbRow) :
    ∀ db : List (String × DbRow), db.lookup id = none →
      (db ++ [(id, row)]).lookup id = some row
  | [], _ => by simp [List.lookup]
  | (k, b) :: rest, h => by
      by_cases hk : id = k
      · subst hk
        rw [lookup_cons_self] at h
        simp at h
      · rw [lookup_cons_ne k id _ _ hk] at h
        rw [List.cons_append, lookup_cons_ne k id _ _ hk]
        exact lookup_append_single id row rest h

theorem dbUpsert_lookup_isSome (db : List (String × DbRow)) (id : String)
    (s : AgentStatus) : ((dbUpsert db id s).lookup id).isSome = true := by
  by_cases h : (db.lookup id).isSome = true
  · rw [dbUpsert, if_pos h]
    have heq := lookup_map_update id (fun row => { status := s, lastError := row.lastError }) db
    rw [heq]
    rw [Option.isSome_iff_exists] at h
    obtain ⟨row, hrow⟩ := h
    simp [hrow]
  · rw [dbUpsert, if_neg h]
    have hnone : db.lookup id = none := by
      cases hl : db.lookup id
      · rfl
      · rw [hl] at h; simp at h
    rw [lookup_append_single id _ db hnone]
    rfl

theorem statusOf_dbUpdateStatus_self (db : List (String × DbRow)) (id : String)
    (s : AgentStatus) (e : Option String) (h : (db.lookup id).isSome = true) :
    statusOf (dbUpdateStatus db id s e) id = some s := by
  rw [statusOf, dbUpdateStatus_lookup]
  rw [Option.isSome_iff_exists] at h
  obtain ⟨row, hrow⟩ := h
  simp [hrow]

theorem dbUpdateStatus_lookup_isSome (db : List (String × DbRow)) (id : String)
    (s : AgentStatus) (e : Option String) :
    ((dbUpdateStatus db id s e).lookup id).isSome = (db.lookup id).isSome := by
  rw [dbUpdateStatus_lookup]
  cases db.lookup id <;> rfl

/-! ## Shape lemmas for startAgent -/

theorem startAgent_dup (st : SwarmState) (id : String) (o : StartOutcome)
    (h : st.activeAgents.contains id = true) :
    startAgent st id o =
      (.error "Agent already running",
       { st with db := dbUpdateStatus st.db id .error (some "Agent already running") }) := by
  have hm : id ∈ st.activeAgents := by simpa using h
  simp [startAgent, hm]

theorem startAgent_timeout_eq (st : SwarmState) (id : String)
    (h : st.activeAgents.contains id = false) :
    startAgent st id .timeout =
      (.error "Startup timeout",
       { st with
         workers := insertKey st.workers id,
         registered := insertKey st.registered id,
         db := dbUpdateStatus
           (dbUpdateStatus (dbUpsert st.db id .starting) id .error (some "Startup timeout"))
           id .error (some "Startup timeout") }) := by
  have hm : id ∉ st.activeAgents := by simpa using h
  simp [startAgent, hm]

theorem startAgent_ready_eq (st : SwarmState) (id : String)
    (h : st.activeAgents.contains id = false) :
    startAgent st id .ready =
      (.ok (),
       { st with
         workers := insertKey st.workers id,
         registered := insertKey st.registered id,
         activeAgents := insertKey st.activeAgents id,
         db := dbUpdateStatus (dbUpsert st.db id .starting) id .running none }) := by
  have hm : id ∉ st.activeAgents := by simpa using h
  simp [startAgent, hm]

/-! ## Mailbox message-id lemmas -/

theorem append_sep_inj (c : Char) :
    ∀ (l1 l2 r1 r2 : List Char), c ∉ l1 → c ∉ l2 →
      l1 ++ c :: r1 = l2 ++ c :: r2 → l1 = l2 ∧ r1 = r2
  | [], [], r1, r2, _, _, h => by
      simp at h
      exact ⟨rfl, h⟩
  | [], b :: l2, r1, r2, _, h2, h => by
      simp at h
      exact absurd (h.1 ▸ List.mem_cons_self b l2) (fun hm => h2 (h.1 ▸ hm))
  | a :: l1, [], r1, r2, h1, _, h => by
      simp at h
      exact absurd (h.1 ▸ List.mem_cons_self a l1) (fun hm => h1 (h.1.symm ▸ List.mem_cons_self a l1))
  | a :: l1, b :: l2, r1, r2, h1, h2, h => by
      simp at h
      have hrec := append_sep_inj c l1 l2 r1 r2
        (fun hm => h1 (List.mem_cons_of_mem a hm))
        (fun hm => h2 (List.mem_cons_of_mem b hm)) h.2
      exact ⟨by rw [h.1, hrec.1], hrec.2⟩

theorem messageId_inj (a ts1 rs1 ts2 rs2 : String)
    (h1 : ('_' : Char) ∉ ts1.data) (h2 : ('_' : Char) ∉ ts2.data)
    (heq : messageId a ts1 rs1 = messageId a ts2 rs2) : ts1 = ts2 ∧ rs1 = rs2 := by
  have hd := congrArg String.data heq
  have e : ∀ t r : String, (messageId a t r).data =
      a.data ++ ('_' : Char) :: (t.data ++ ('_' : Char) :: r.data) := by
    intro t r
    show (a ++ "_" ++ t ++ "_" ++ r).data = _
    have : (a ++ "_" ++ t ++ "_" ++ r).data =
        a.data ++ "_".data ++ t.data ++ "_".data ++ r.data := rfl
    rw [this]
    simp [List.append_assoc]
  rw [e ts1 rs1, e ts2 rs2] at hd
  have hd2 := List.append_cancel_left hd
  have hd3 : ts1.data ++ ('_' : Char) :: rs1.data = ts2.data ++ ('_' : Char) :: rs2.data := by
    injection hd2
  obtain ⟨hts, hrs⟩ := append_sep_inj '_' ts1.data ts2.data rs1.data rs2.data h1 h2 hd3
  exact ⟨String.ext hts, String.ext hrs⟩

/-! ## Claims -/

/-- C1: a `transitionTo` call whose target is not in the adjacency set of
the current state fails with the invalid-transition error and leaves the
machine (in particular `currentState`) unchanged; a call whose target is
in the adjacency set succeeds, returning the generated proof and setting
`currentState` to the target; hence after N successful transitions
`currentState` equals the fold of the adjacency table over the transition
sequence. -/
theorem C1_transition_adjacency :
    (∀ (hashT : EncodedTransition → String) (h2 : String → String → String)
       (signFn : String → String) (now1 now2 : Nat) (pe : Option String)
       (m : Machine) (t : AgentState) (act : String) (d : Option String),
       (validTransitions m.currentState).contains t = false →
         transitionTo hashT h2 signFn now1 now2 pe m t act d =
           (.error ("Invalid transition: " ++ stateName m.currentState ++ " → " ++ stateName t), m))
    ∧ (∀ (hashT : EncodedTransition → String) (h2 : String → String → String)
       (signFn : String → String) (now1 now2 : Nat)
       (m : Machine) (t : AgentState) (act : String) (d : Option String),
       (validTransitions m.currentState).contains t = true →
         (transitionTo hashT h2 signFn now1 now2 none m t act d).1 =
           .ok (generateProof hashT h2 signFn now1 now2 m.stateHistory
             ⟨m.currentState, t, act, d⟩).1
         ∧ (transitionTo hashT h2 signFn now1 now2 none m t act d).2.currentState = t)
    ∧ (∀ (hashT : EncodedTransition → String) (h2 : String → String → String)
       (signFn : String → String) (m : Machine) (steps : List StepInput),
       (∀ r ∈ (runSteps hashT h2 signFn m steps).1, r.isOk = true) →
         (runSteps hashT h2 signFn m steps).2.currentState =
           foldAdjacency m.currentState (steps.map StepInput.target)) := by
  refine ⟨?_, ?_, ?_⟩
  · intro hashT h2 signFn now1 now2 pe m t act d hc
    exact transitionTo_invalid hashT h2 signFn now1 now2 pe m t act d
      ((hasTransitionB_eq m.currentState t).trans hc)
  · intro hashT h2 signFn now1 now2 m t act d hc
    have hv : hasTransitionB m.currentState t = true :=
      (hasTransitionB_eq m.currentState t).trans hc
    rw [transitionTo_valid_none hashT h2 signFn now1 now2 m t act d hv]
    exact ⟨rfl, rfl⟩
  · intro hashT h2 signFn m steps hok
    exact runSteps_fold hashT h2 signFn steps m hok

/-- C1 witness: at a fresh machine a first transition to PLANNING is
rejected unchanged, a first transition to GOAL_PARSE succeeds, and the
two-step run INIT to GOAL_PARSE to PLANNING ends in PLANNING, the fold of
the adjacency table over the targets. -/
theorem C1_transition_adjacency_witness :
    (transitionTo demoHash demoH2 demoSign 1 2 none newMachine .PLANNING "go" none =
      (.error ("Invalid transition: " ++ stateName newMachine.currentState ++ " → " ++ stateName .PLANNING), newMachine))
    ∧ ((transitionTo demoHash demoH2 demoSign 1 2 none newMachine .GOAL_PARSE "parse" none).1 =
        .ok (generateProof demoHash demoH2 demoSign 1 2 newMachine.stateHistory
          ⟨newMachine.currentState, .GOAL_PARSE, "parse", none⟩).1
      ∧ (transitionTo demoHash demoH2 demoSign 1 2 none newMachine .GOAL_PARSE "parse" none).2.currentState = .GOAL_PARSE)
    ∧ (runSteps demoHash demoH2 demoSign newMachine demoSteps).2.currentState =
        foldAdjacency newMachine.currentState (demoSteps.map StepInput.target) := by
  refine ⟨?_, ?_, ?_⟩
  · exact C1_transition_adjacency.1 demoHash demoH2 demoSign 1 2 none newMachine
      .PLANNING "go" none (by decide)
  · exact C1_transition_adjacency.2.1 demoHash demoH2 demoSign 1 2 newMachine
      .GOAL_PARSE "parse" none (by decide)
  · exact C1_transition_adjacency.2.2 demoHash demoH2 demoSign newMachine demoSteps
      (by decide)

/-- C2 counterexample: with a legal target (INIT to GOAL_PARSE) and a
failing persistence insert, `transitionTo` does not advance `currentState`
and returns the persistence error instead of a `Proof` — refuting the
claim that a persistence failure is non-fatal to the in-memory
transition. -/
theorem C2_persistence_fatal_counterexample :
    (transitionTo demoHash demoH2 demoSign 1 2 (some "db down") newMachine
      .GOAL_PARSE "parse" none).1 = .error "db down"
    ∧ (transitionTo demoHash demoH2 demoSign 1 2 (some "db down") newMachine
      .GOAL_PARSE "parse" none).2.currentState = newMachine.currentState
    ∧ (transitionTo demoHash demoH2 demoSign 1 2 (some "db down") newMachine
      .GOAL_PARSE "parse" none).2.currentState ≠ .GOAL_PARSE := by
  refine ⟨rfl, by decide, by decide⟩

/-- C2 (amended): the persistence write of the proof is awaited on the
transition path and is not caught: when it fails, `transitionTo` throws
the persistence error, returns no `Proof`, and `currentState` does not
advance — although the hash history has already been extended by the
pushed `stateHash`.  Persistence failure is therefore fatal to the
in-memory transition, not merely logged. -/
theorem C2_persistence_failure_aborts (hashT : EncodedTransition → String)
    (h2 : String → String → String) (signFn : String → String)
    (now1 now2 : Nat) (err : String) (m : Machine) (t : AgentState)
    (act : String) (d : Option String)
    (hc : (validTransitions m.currentState).contains t = true) :
    transitionTo hashT h2 signFn now1 now2 (some err) m t act d =
      (.error err,
       { currentState := m.currentState,
         stateHistory := m.stateHistory ++ [hashState hashT now1 ⟨m.currentState, t, act, d⟩] }) := by
  have hv : hasTransitionB m.currentState t = true :=
    (hasTransitionB_eq m.currentState t).trans hc
  rw [transitionTo_valid_some hashT h2 signFn now1 now2 err m t act d hv]
  rfl

/-- C2 witness for the amended claim at a concrete machine and error. -/
theorem C2_persistence_failure_aborts_witness :
    transitionTo demoHash demoH2 demoSign 1 2 (some "db down") newMachine
      .GOAL_PARSE "parse" none =
      (.error "db down",
       { currentState := newMachine.currentState,
         stateHistory := newMachine.stateHistory ++
           [hashState demoHash 1 ⟨newMachine.currentState, .GOAL_PARSE, "parse", none⟩] }) :=
  C2_persistence_failure_aborts demoHash demoH2 demoSign 1 2 "db down" newMachine
    .GOAL_PARSE "parse" none (by decide)

/-- C9: a freshly constructed machine starts in INIT (not IDLE); its first
transition succeeds exactly when the target is GOAL_PARSE, ERROR,
TERMINATED or IDLE, and in particular a first transition to INIT itself
or to PLANNING is rejected, leaving the machine unchanged. -/
theorem C9_initial_state_INIT :
    newMachine.currentState = AgentState.INIT
    ∧ newMachine.currentState ≠ AgentState.IDLE
    ∧ (∀ (hashT : EncodedTransition → String) (h2 : String → String → String)
        (signFn : String → String) (now1 now2 : Nat) (t : AgentState)
        (act : String) (d : Option String),
        ((transitionTo hashT h2 signFn now1 now2 none newMachine t act d).1.isOk = true ↔
          t ∈ [AgentState.GOAL_PARSE, AgentState.ERROR, AgentState.TERMINATED, AgentState.IDLE]))
    ∧ (∀ (hashT : EncodedTransition → String) (h2 : String → String → String)
        (signFn : String → String) (now1 now2 : Nat) (pe : Option String)
        (act : String) (d : Option String),
        transitionTo hashT h2 signFn now1 now2 pe newMachine .INIT act d =
          (.error "Invalid transition: INIT → INIT", newMachine)
        ∧ transitionTo hashT h2 signFn now1 now2 pe newMachine .PLANNING act d =
          (.error "Invalid transition: INIT → PLANNING", newMachine)) := by
  refine ⟨rfl, by decide, ?_, ?_⟩
  · intro hashT h2 signFn now1 now2 t act d
    rw [transitionTo_isOk]
    cases t <;> decide
  · intro hashT h2 signFn now1 now2 pe act d
    constructor
    · exact transitionTo_invalid hashT h2 signFn now1 now2 pe newMachine .INIT act d (by decide)
    · exact transitionTo_invalid hashT h2 signFn now1 now2 pe newMachine .PLANNING act d (by decide)

/-- C3: over a single agent's proof history (starting from the empty hash
history), the first proof's prevHash is the empty string and the k-th
proof's prevHash equals the (k-1)-th proof's stateHash for every k > 0. -/
theorem C3_prevHash_chain (hashT : EncodedTransition → String)
    (h2 : String → String → String) (signFn : String → String)
    (inputs : List (Nat × Nat × StateTransitionR)) :
    (∀ hp : 0 < (genChain hashT h2 signFn [] inputs).length,
      ((genChain hashT h2 signFn [] inputs).get ⟨0, hp⟩).prevHash = "")
    ∧ (∀ (k : Nat) (hk : k + 1 < (genChain hashT h2 signFn [] inputs).length),
      ((genChain hashT h2 signFn [] inputs).get ⟨k + 1, hk⟩).prevHash =
        ((genChain hashT h2 signFn [] inputs).get ⟨k, by omega⟩).stateHash) := by
  have h := genChain_chain hashT h2 signFn inputs []
  exact ⟨fun hp => h.1 hp, h.2⟩

/-- C3 witness: a concrete two-proof history has an empty first prevHash
and a second prevHash equal to the first stateHash. -/
theorem C3_prevHash_chain_witness :
    ((genChain demoHash demoH2 demoSign [] demoInputs).get ⟨0, by decide⟩).prevHash = ""
    ∧ ((genChain demoHash demoH2 demoSign [] demoInputs).get ⟨1, by decide⟩).prevHash =
      ((genChain demoHash demoH2 demoSign [] demoInputs).get ⟨0, by decide⟩).stateHash := by
  refine ⟨(C3_prevHash_chain demoHash demoH2 demoSign demoInputs).1 (by decide), ?_⟩
  exact (C3_prevHash_chain demoHash demoH2 demoSign demoInputs).2 0 (by decide)

/-- C4: the Merkle tree is rebuilt over the whole ordered history on every
append, and (a) for any combining digest the proof extracted for any leaf
— in particular any earlier leaf — folds back to the root of the current
tree; (b) over the free (collision-free) combining digest, appending a
leaf always changes the root; (c) the proof generated for the newly
appended stateHash validates against the root over the full new history,
and generateProof's published fields are exactly those of the rebuilt
tree. -/
theorem C4_merkle_rebuild_roundtrip :
    (∀ {α : Type} (h2 : α → α → α) (l : List α) (i : Nat) (hi : i < l.length),
      rootFrom h2 l = some (processProof h2 (l.get ⟨i, hi⟩) (getProofIdx h2 l i)))
    ∧ (∀ (l : List String) (x : String),
      rootFrom HashTerm.nd (l.map HashTerm.lf ++ [HashTerm.lf x]) ≠
        rootFrom HashTerm.nd (l.map HashTerm.lf))
    ∧ (∀ (h2 : String → String → String) (hist : List String) (sh : String),
      rootFrom h2 (hist ++ [sh]) =
        some (processProof h2 sh
          (getProofIdx h2 (hist ++ [sh]) ((hist ++ [sh]).indexOf sh))))
    ∧ (∀ (hashT : EncodedTransition → String) (h2 : String → String → String)
        (signFn : String → String) (now1 now2 : Nat) (hist : List String)
        (st : StateTransitionR),
      (generateProof hashT h2 signFn now1 now2 hist st).2 =
          hist ++ [hashState hashT now1 st]
      ∧ (generateProof hashT h2 signFn now1 now2 hist st).1.stateHash =
          hashState hashT now1 st
      ∧ (generateProof hashT h2 signFn now1 now2 hist st).1.merkleRoot =
          (rootFrom h2 (hist ++ [hashState hashT now1 st])).getD ""
      ∧ (generateProof hashT h2 signFn now1 now2 hist st).1.merkleProof =
          (getProofIdx h2 (hist ++ [hashState hashT now1 st])
            ((hist ++ [hashState hashT now1 st]).indexOf (hashState hashT now1 st))).map
            Prod.snd) := by
  refine ⟨?_, rootFrom_append_ne, ?_, ?_⟩
  · intro α h2 l i hi
    exact merkle_roundtrip h2 l i _ (List.get?_eq_get hi)
  · intro h2 hist sh
    have hmem : sh ∈ hist ++ [sh] := List.mem_append.mpr (Or.inr (by simp))
    have hidx := List.indexOf_lt_length.mpr hmem
    have hget : (hist ++ [sh]).get? ((hist ++ [sh]).indexOf sh) = some sh := by
      rw [List.get?_eq_get hidx]
      simp [List.indexOf_get]
    exact merkle_roundtrip h2 (hist ++ [sh]) _ sh hget
  · intro hashT h2 signFn now1 now2 hist st
    exact ⟨rfl, rfl, rfl, rfl⟩

/-- C4 witness: the proof extracted for an earlier leaf ("b", index 1) of
a concrete three-leaf tree folds back to the three-leaf root, and
appending a leaf to a concrete one-leaf tree changes the root. -/
theorem C4_merkle_rebuild_roundtrip_witness :
    rootFrom demoH2 ["a", "b", "c"] =
      some (processProof demoH2 (["a", "b", "c"].get ⟨1, by decide⟩)
        (getProofIdx demoH2 ["a", "b", "c"] 1))
    ∧ rootFrom HashTerm.nd (["a"].map HashTerm.lf ++ [HashTerm.lf "b"]) ≠
        rootFrom HashTerm.nd (["a"].map HashTerm.lf) := by
  refine ⟨?_, C4_merkle_rebuild_roundtrip.2.1 ["a"] "b"⟩
  exact C4_merkle_rebuild_roundtrip.1 demoH2 ["a", "b", "c"] 1 (by decide)

/-- C5: evaluating `startAgent` on an agent that is already in the active
set: the call fails with the already-running error and leaves the active
set unchanged, but — contrary to the claim — the catch-all error handler
overwrites the agent's persisted status from `running` to `error` with
lastError "Agent already running". -/
theorem C5_duplicate_start_flips_status :
    (startAgent demoActiveState "A" .ready).1 = .error "Agent already running"
    ∧ (startAgent demoActiveState "A" .ready).2.activeAgents = demoActiveState.activeAgents
    ∧ (startAgent demoActiveState "A" .ready).2.workers = demoActiveState.workers
    ∧ statusOf demoActiveState.db "A" = some .running
    ∧ statusOf (startAgent demoActiveState "A" .ready).2.db "A" = some .error
    ∧ (startAgent demoActiveState "A" .ready).2.db ≠ demoActiveState.db := by
  exact ⟨rfl, rfl, rfl, rfl, rfl, by decide⟩

/-- C6 counterexample: two successive sendMessage calls for the same agent
that observe the same Date.now reading and the same Math.random draw
generate the same message id (and the second Map.set overwrites the first
pending callback, leaving a single bookkeeping entry). -/
theorem C6_messageId_collision_counterexample :
    (sendMessage ⟨[]⟩ "agentA" "1700000000000" "0.437").1 =
      (sendMessage (sendMessage ⟨[]⟩ "agentA" "1700000000000" "0.437").2
        "agentA" "1700000000000" "0.437").1
    ∧ (sendMessage (sendMessage ⟨[]⟩ "agentA" "1700000000000" "0.437").2
        "agentA" "1700000000000" "0.437").2.responseCallbacks.length = 1 := by
  exact ⟨rfl, rfl⟩

/-- C6 (amended): message ids of two sendMessage calls for the same agent
are distinct exactly as far as the observed (Date.now, Math.random) draws
are: whenever the two draws differ as a pair, the ids differ (the clock
component never contains an underscore); when both draws coincide — which
no monotonic counter rules out — the ids collide. -/
theorem C6_messageId_distinct_iff_draws (a ts1 rs1 ts2 rs2 : String)
    (mb1 mb2 : MailboxState)
    (h1 : ('_' : Char) ∉ ts1.data) (h2 : ('_' : Char) ∉ ts2.data)
    (hne : (ts1, rs1) ≠ (ts2, rs2)) :
    (sendMessage mb1 a ts1 rs1).1 ≠ (sendMessage mb2 a ts2 rs2).1 := by
  intro heq
  obtain ⟨hts, hrs⟩ := messageId_inj a ts1 rs1 ts2 rs2 h1 h2 heq
  exact hne (by rw [hts, hrs])

/-- C6 witness: two sends one millisecond apart generate distinct ids. -/
theorem C6_messageId_distinct_iff_draws_witness :
    (sendMessage ⟨[]⟩ "agentA" "1" "0.1").1 ≠ (sendMessage ⟨[]⟩ "agentA" "2" "0.1").1 :=
  C6_messageId_distinct_iff_draws "agentA" "1" "0.1" "2" "0.1" ⟨[]⟩ ⟨[]⟩
    (by decide) (by decide) (by decide)

/-- C7: when the worker never signals ready, `startAgent` fails with the
startup-timeout error, persists status error, does not add the agent to
the active set (so the active count is unchanged), and after an explicit
`stopAgent` a subsequent `startAgent` of the same agent is permitted and
succeeds. -/
theorem C7_startup_timeout (st : SwarmState) (id : String)
    (h : st.activeAgents.contains id = false) :
    (startAgent st id .timeout).1 = .error "Startup timeout"
    ∧ statusOf (startAgent st id .timeout).2.db id = some .error
    ∧ (startAgent st id .timeout).2.activeAgents = st.activeAgents
    ∧ getActiveAgentCount (startAgent st id .timeout).2 = getActiveAgentCount st
    ∧ isAgentActive (startAgent st id .timeout).2 id = false
    ∧ (startAgent (stopAgent (startAgent st id .timeout).2 id) id .ready).1 = .ok () := by
  rw [startAgent_timeout_eq st id h]
  refine ⟨rfl, ?_, rfl, rfl, h, ?_⟩
  · apply statusOf_dbUpdateStatus_self
    rw [dbUpdateStatus_lookup_isSome]
    exact dbUpsert_lookup_isSome st.db id .starting
  · have hw : (insertKey st.workers id).contains id = true := insertKey_contains st.workers id
    rw [stopAgent, if_pos hw]
    have hna : (removeKey st.activeAgents id).contains id = false :=
      removeKey_contains_self st.activeAgents id
    rw [startAgent_ready_eq _ id hna]

/-- C7 witness: a timed-out start of "A" on an empty supervisor behaves as
claimed and a stop-then-start of "A" succeeds. -/
theorem C7_startup_timeout_witness :
    (startAgent demoEmptyState "A" .timeout).1 = .error "Startup timeout"
    ∧ statusOf (startAgent demoEmptyState "A" .timeout).2.db "A" = some .error
    ∧ (startAgent demoEmptyState "A" .timeout).2.activeAgents = demoEmptyState.activeAgents
    ∧ getActiveAgentCount (startAgent demoEmptyState "A" .timeout).2 =
        getActiveAgentCount demoEmptyState
    ∧ isAgentActive (startAgent demoEmptyState "A" .timeout).2 "A" = false
    ∧ (startAgent (stopAgent (startAgent demoEmptyState "A" .timeout).2 "A") "A" .ready).1 = .ok () :=
  C7_startup_timeout demoEmptyState "A" (by decide)

/-- C8: when the worker of a tracked agent exits with a non-zero code, the
exit handler appends a warning log row and stops the agent on its own:
the agent leaves the active set, `isAgentActive` becomes false, and the
workers map only shrinks — no replacement worker is spawned. -/
theorem C8_nonzero_exit_stops_agent (st : SwarmState) (id : String) (code : Int)
    (hw : st.workers.contains id = true) (hc : code ≠ 0) :
    (id, "warning", "Exited with code " ++ toString code) ∈ (onWorkerExit st id code).logs
    ∧ isAgentActive (onWorkerExit st id code) id = false
    ∧ (onWorkerExit st id code).activeAgents = removeKey st.activeAgents id
    ∧ (onWorkerExit st id code).workers = removeKey st.workers id := by
  have hunfold : onWorkerExit st id code =
      stopAgent { st with
        logs := st.logs ++ [(id, "warning", "Exited with code " ++ toString code)] } id := by
    rw [onWorkerExit, if_pos hc]
  rw [hunfold, stopAgent, if_pos hw]
  refine ⟨by simp, ?_, rfl, rfl⟩
  exact removeKey_contains_self st.activeAgents id

/-- C8 witness: worker of active agent "B" exits with code 1. -/
theorem C8_nonzero_exit_stops_agent_witness :
    ("B", "warning", "Exited with code " ++ toString (1 : Int)) ∈
      (onWorkerExit demoRunningB "B" 1).logs
    ∧ isAgentActive (onWorkerExit demoRunningB "B" 1) "B" = false
    ∧ (onWorkerExit demoRunningB "B" 1).activeAgents = removeKey demoRunningB.activeAgents "B"
    ∧ (onWorkerExit demoRunningB "B" 1).workers = removeKey demoRunningB.workers "B" :=
  C8_nonzero_exit_stops_agent demoRunningB "B" 1 (by decide) (by decide)

/-- C10: `hashState` is not a function of the transition record alone: the
serialized payload embeds a fresh wall-clock reading, so the payloads at
two instants differ, and under any collision-free digest the resulting
stateHashes differ; the published `Proof.timestamp` is a second, later
clock reading, so two executions with identical transition fields and
identical `Proof.timestamp` can carry different stateHashes — the
stateHash is not recomputable from the persisted fields and
`Proof.timestamp` alone. -/
theorem C10_hashState_clock_dependent :
    (∀ (st : StateTransitionR) (t1 t2 : Nat), t1 ≠ t2 →
      (⟨t1, st.fromState, st.toState, st.action, st.params⟩ : EncodedTransition) ≠
        (⟨t2, st.fromState, st.toState, st.action, st.params⟩ : EncodedTransition))
    ∧ (∀ (hashT : EncodedTransition → String), Function.Injective hashT →
        ∀ (st : StateTransitionR) (t1 t2 : Nat), t1 ≠ t2 →
          hashState hashT t1 st ≠ hashState hashT t2 st)
    ∧ (∀ (hashT : EncodedTransition → String) (h2 : String → String → String)
        (signFn : String → String) (now1 now2 : Nat) (hist : List String)
        (st : StateTransitionR),
        (generateProof hashT h2 signFn now1 now2 hist st).1.timestamp = now2)
    ∧ (∀ (hashT : EncodedTransition → String), Function.Injective hashT →
        ∀ (h2 : String → String → String) (signFn : String → String)
          (hist : List String) (st : StateTransitionR) (now1 now1' now2 : Nat),
          now1 ≠ now1' →
            (generateProof hashT h2 signFn now1 now2 hist st).1.timestamp =
              (generateProof hashT h2 signFn now1' now2 hist st).1.timestamp
            ∧ (generateProof hashT h2 signFn now1 now2 hist st).1.stateHash ≠
              (generateProof hashT h2 signFn now1' now2 hist st).1.stateHash) := by
  refine ⟨?_, ?_, ?_, ?_⟩
  · intro st t1 t2 hne heq
    exact hne (congrArg EncodedTransition.timestamp heq)
  · intro hashT hinj st t1 t2 hne heq
    exact hne (congrArg EncodedTransition.timestamp (hinj heq))
  · intro hashT h2 signFn now1 now2 hist st
    rfl
  · intro hashT hinj h2 signFn hist st now1 now1' now2 hne
    refine ⟨rfl, ?_⟩
    intro heq
    exact hne (congrArg EncodedTransition.timestamp (hinj heq))

/-- C10 witness: with a concrete injective digest, hashing the same record
at clock readings 1 and 2 yields different stateHashes, and two runs with
hashing-time readings 5 and 6 but the same proof-time reading 7 publish
equal timestamps with different stateHashes. -/
theorem C10_hashState_clock_dependent_witness :
    hashState demoInjHash 1 demoSt ≠ hashState demoInjHash 2 demoSt
    ∧ (generateProof demoInjHash demoH2 demoSign 5 7 [] demoSt).1.timestamp =
      (generateProof demoInjHash demoH2 demoSign 6 7 [] demoSt).1.timestamp
    ∧ (generateProof demoInjHash demoH2 demoSign 5 7 [] demoSt).1.stateHash ≠
      (generateProof demoInjHash demoH2 demoSign 6 7 [] demoSt).1.stateHash := by
  refine ⟨?_, ?_, ?_⟩
  · exact C10_hashState_clock_dependent.2.1 demoInjHash demoInjHash_inj demoSt 1 2 (by decide)
  · exact (C10_hashState_clock_dependent.2.2.2 demoInjHash demoInjHash_inj demoH2 demoSign
      [] demoSt 5 6 7 (by decide)).1
  · exact (C10_hashState_clock_dependent.2.2.2 demoInjHash demoInjHash_inj demoH2 demoSign
      [] demoSt 5 6 7 (by decide)).2

end Evolunary
